import Mathlib

/-!
# Verification of the Hyperledger Fabric 0.6 crypto layer (annotated excerpt)

Shallow embedding of:
- `core/crypto/primitives/aes.go` (`PKCS7Padding`, `PKCS7UnPadding`,
  `CBCEncrypt`, `CBCDecrypt`),
- `core/crypto/primitives/hash.go` (`HMAC`, `HMACTruncated`),
- the node lifecycle (`nodeImpl.register`, `nodeImpl.init`),
- the `getSecHelper` once-guarded crypto-engine construction.

Bytes are modelled as `Fin 256`. A Go function that can panic (out-of-range
index or slice) is modelled with an outer `Option`: `none` means the Go code
panics at that input, `some r` means it returns normally with `r`.
External primitives (the AES block cipher, the configured hash/HMAC) are
parameters of the embedded functions; source-level checks (key size, block
alignment, padding checks) are embedded byte-for-byte from the Go code.
-/

/-- A byte, as in Go's `byte`. -/
abbrev Byte := Fin 256

/-- `aes.BlockSize` from Go's `crypto/aes`: 16 bytes. -/
def aesBlockSize : Nat := 16

/-- `PKCS7Padding` from `aes.go`: appends `16 - len(src) % 16` copies of the
byte `byte(padding)` (the count itself, truncated to a byte as Go does). -/
def PKCS7Padding (src : List Byte) : List Byte :=
  let padding := aesBlockSize - src.length % aesBlockSize
  src ++ List.replicate padding ⟨padding % 256, Nat.mod_lt _ (by norm_num)⟩

/-- `PKCS7UnPadding` from `aes.go`: reads the last byte as the padding count
`unpadding`; errors when `unpadding > 16` or `unpadding == 0`; otherwise
slices off the last `unpadding` bytes after checking each equals the count.
`none` models the two Go panics: reading `src[len(src)-1]` of an empty slice,
and the negative slice bound `src[len(src)-unpadding:]` when
`len(src) < unpadding`. -/
def PKCS7UnPadding (src : List Byte) : Option (Except String (List Byte)) :=
  match src.getLast? with
  | none => none
  | some last =>
    if last.val > aesBlockSize ∨ last.val = 0 then some (.error "invalid padding")
    else if src.length < last.val then none
    else if (src.drop (src.length - last.val)).all (fun x => x == last) then
      some (.ok (src.take (src.length - last.val)))
    else some (.error "invalid padding")

section PKCS7Lemmas

theorem getLast?_append_right {α : Type} (l₁ l₂ : List α) (h : l₂ ≠ []) :
    (l₁ ++ l₂).getLast? = l₂.getLast? := by
  induction l₁ with
  | nil => rfl
  | cons a l ih =>
    rw [List.cons_append, List.getLast?_cons, ih]
    cases l₂ with
    | nil => exact absurd rfl h
    | cons b t => simp [List.getLast?_cons]

theorem getLast?_replicate_succ {α : Type} (n : Nat) (a : α) :
    (List.replicate (n + 1) a).getLast? = some a := by
  induction n with
  | zero => rfl
  | succ m ih =>
    rw [List.replicate_succ, List.getLast?_cons, ih]
    rfl

/-- Unpadding a buffer that ends in `p ≥ 1` correct padding bytes (`1 ≤ p ≤ 16`)
succeeds and strips exactly those bytes. -/
theorem PKCS7UnPadding_append_replicate (b : List Byte) (p : Nat) (pb : Byte)
    (h1 : 1 ≤ p) (h16 : p ≤ 16) (hpb : pb.val = p) :
    PKCS7UnPadding (b ++ List.replicate p pb) = some (.ok b) := by
  have hrep : (List.replicate p pb : List Byte) ≠ [] := by
    cases p with
    | zero => omega
    | succ m => simp [List.replicate_succ]
  have hlast : (b ++ List.replicate p pb).getLast? = some pb := by
    rw [getLast?_append_right _ _ hrep]
    cases p with
    | zero => omega
    | succ m => exact getLast?_replicate_succ m pb
  have hlen : (b ++ List.replicate p pb).length = b.length + p := by
    simp [List.length_append, List.length_replicate]
  unfold PKCS7UnPadding
  rw [hlast]
  dsimp only
  have hcond : ¬ (pb.val > aesBlockSize ∨ pb.val = 0) := by
    rw [hpb]; unfold aesBlockSize; omega
  rw [if_neg hcond]
  have hge : ¬ ((b ++ List.replicate p pb).length < pb.val) := by
    rw [hlen, hpb]; omega
  rw [if_neg hge]
  have hsub : (b ++ List.replicate p pb).length - pb.val = b.length := by
    rw [hlen, hpb]; omega
  rw [hsub]
  have hdrop : (b ++ List.replicate p pb).drop b.length = List.replicate p pb := by
    rw [List.drop_left]
  have htake : (b ++ List.replicate p pb).take b.length = b := by
    rw [List.take_left]
  rw [hdrop, htake]
  have hall : (List.replicate p pb).all (fun x => x == pb) = true := by
    rw [List.all_eq_true]
    intro x hx
    rw [List.eq_of_mem_replicate hx]
    simp
  rw [if_pos hall]

end PKCS7Lemmas

/-- C6: For every byte buffer `b`, `PKCS7UnPadding (PKCS7Padding b)` returns
`b`; the padded length is `len b + (16 - len b % 16)`, a multiple of the AES
block size strictly greater than `len b` (a full extra block when `len b` is
already a multiple of 16). -/
theorem pkcs7_roundtrip (b : List Byte) :
    PKCS7UnPadding (PKCS7Padding b) = some (.ok b) ∧
    (PKCS7Padding b).length = b.length + (aesBlockSize - b.length % aesBlockSize) ∧
    (PKCS7Padding b).length % aesBlockSize = 0 ∧
    b.length < (PKCS7Padding b).length := by
  have hmod : b.length % 16 < 16 := Nat.mod_lt _ (by norm_num)
  have hp1 : 1 ≤ 16 - b.length % 16 := by omega
  have hp16 : 16 - b.length % 16 ≤ 16 := by omega
  have hlen : (PKCS7Padding b).length = b.length + (16 - b.length % 16) := by
    unfold PKCS7Padding aesBlockSize
    simp [List.length_append, List.length_replicate]
  refine ⟨?_, ?_, ?_, ?_⟩
  · unfold PKCS7Padding
    exact PKCS7UnPadding_append_replicate b (aesBlockSize - b.length % aesBlockSize)
      _ hp1 hp16 (by unfold aesBlockSize; simp; omega)
  · exact hlen
  · rw [hlen]; unfold aesBlockSize; omega
  · rw [hlen]; omega

/-- C8 counterexample: on the one-byte buffer `[5]` the Go code computes the
slice `src[1-5:]`, a negative bound, and panics (`none` in the model): the
call neither succeeds nor returns the invalid-padding error, refuting the
claimed dichotomy for every input buffer. -/
theorem pkcs7unpadding_panic_short_buffer :
    PKCS7UnPadding [(5 : Byte)] = none ∧
    some (Except.ok ([] : List Byte)) ≠ PKCS7UnPadding [(5 : Byte)] ∧
    some (Except.error "invalid padding") ≠ PKCS7UnPadding [(5 : Byte)] := by
  have h : PKCS7UnPadding [(5 : Byte)] = none := rfl
  refine ⟨h, ?_, ?_⟩
  · rw [h]; exact fun hc => Option.noConfusion hc
  · rw [h]; exact fun hc => Option.noConfusion hc

/-- C8 (amended): for every nonempty buffer whose length is at least its last
byte `p`, unpadding fails with the invalid-padding error exactly when `p = 0`,
`p > 16`, or some byte among the last `p` bytes differs from `p`; otherwise it
succeeds and returns the buffer with its last `p` bytes removed. (When
`0 < p ≤ 16` exceeds the buffer length, the code instead panics; see the
counterexample.) -/
theorem PKCS7UnPadding_characterization (src : List Byte) (last : Byte)
    (hlast : src.getLast? = some last) (hlen : last.val ≤ src.length) :
    (PKCS7UnPadding src = some (.error "invalid padding") ↔
       (last.val = 0 ∨ last.val > aesBlockSize ∨
        ∃ x ∈ src.drop (src.length - last.val), x ≠ last)) ∧
    (¬ (last.val = 0 ∨ last.val > aesBlockSize ∨
        ∃ x ∈ src.drop (src.length - last.val), x ≠ last) →
      PKCS7UnPadding src = some (.ok (src.take (src.length - last.val)))) := by
  unfold PKCS7UnPadding
  rw [hlast]
  dsimp only
  by_cases hbig : last.val > aesBlockSize ∨ last.val = 0
  · rw [if_pos hbig]
    constructor
    · exact iff_of_true rfl (by tauto)
    · intro hneg
      exact absurd (by tauto) hneg
  · rw [if_neg hbig, if_neg (Nat.not_lt.mpr hlen)]
    by_cases hall : (src.drop (src.length - last.val)).all (fun x => x == last) = true
    · rw [if_pos hall]
      constructor
      · refine iff_of_false (by simp) ?_
        rintro (h0 | hgt | ⟨x, hx, hne⟩)
        · exact hbig (Or.inr h0)
        · exact hbig (Or.inl hgt)
        · have := List.all_eq_true.mp hall x hx
          exact hne (by simpa using this)
      · intro _; rfl
    · rw [if_neg hall]
      have hex : ∃ x ∈ src.drop (src.length - last.val), x ≠ last := by
        rw [List.all_eq_true] at hall
        push_neg at hall
        obtain ⟨x, hx, hne⟩ := hall
        exact ⟨x, hx, by simpa using hne⟩
      constructor
      · exact iff_of_true rfl (Or.inr (Or.inr hex))
      · intro hneg
        exact absurd (Or.inr (Or.inr hex)) hneg

/-- C8 witness: for the buffer `[2, 2]` (a valid one-block padding tail) the
characterization applies and unpadding succeeds with the empty buffer. -/
theorem PKCS7UnPadding_characterization_witness :
    PKCS7UnPadding [(2 : Byte), (2 : Byte)] = some (.ok []) :=
  (PKCS7UnPadding_characterization [(2 : Byte), (2 : Byte)] (2 : Byte)
    rfl (by decide)).2 (by decide)

/-- C10: `PKCS7UnPadding` reads `src[len(src)-1]` without a length check, so
on the empty buffer it performs an out-of-range access (modelled `none`)
instead of returning the invalid-padding error, and every normal return
(success or error) requires a nonempty input. -/
theorem PKCS7UnPadding_requires_nonempty :
    PKCS7UnPadding [] = none ∧
    ∀ (src : List Byte) (r : Except String (List Byte)),
      PKCS7UnPadding src = some r → 1 ≤ src.length := by
  refine ⟨rfl, ?_⟩
  intro src r h
  cases src with
  | nil => exact absurd h (by rw [show PKCS7UnPadding [] = none from rfl]; exact fun hc => Option.noConfusion hc)
  | cons a t => simp [List.length_cons]

/-- C10 witness: the one-byte buffer `[1]` returns normally (successfully),
and the theorem yields its length bound. -/
theorem PKCS7UnPadding_requires_nonempty_witness :
    1 ≤ ([(1 : Byte)] : List Byte).length :=
  PKCS7UnPadding_requires_nonempty.2 [(1 : Byte)] (.ok []) rfl

/-- XOR of two bytes, as `cipher/cbc.go`'s `xorBytes` does elementwise. -/
def byteXor (x y : Byte) : Byte :=
  ⟨(x.val ^^^ y.val) % 256, Nat.mod_lt _ (by norm_num)⟩

/-- Elementwise XOR of two equal-length byte buffers. -/
def bxor (a b : List Byte) : List Byte := List.zipWith byteXor a b

/-- `aes.NewCipher` succeeds exactly for 16-, 24- or 32-byte keys. -/
def aesKeySizeOk (key : List Byte) : Bool :=
  key.length == 16 || key.length == 24 || key.length == 32

/-- Split a buffer into consecutive 16-byte blocks (the last chunk may be
shorter when the input is not block-aligned; callers check alignment first). -/
def toBlocks (l : List Byte) : List (List Byte) :=
  if h : l = [] then []
  else l.take 16 :: toBlocks (l.drop 16)
termination_by l.length
decreasing_by
  simp only [List.length_drop]
  have : 0 < l.length := List.length_pos.mpr h
  omega

/-- CBC chaining for encryption, as `cipher.NewCBCEncrypter(block, iv)` with
`CryptBlocks`: each ciphertext block is `E(plain XOR previous)`, starting from
the IV. `E` is the AES block-encryption function for the key in use. -/
def cbcEncBlocks (E : List Byte → List Byte) : List Byte → List (List Byte) → List (List Byte)
  | _, [] => []
  | prev, b :: bs =>
    let c := E (bxor b prev)
    c :: cbcEncBlocks E c bs

/-- CBC chaining for decryption, as `cipher.NewCBCDecrypter(block, iv)` with
`CryptBlocks`: each plaintext block is `D(cipher) XOR previous`, starting from
the IV. `D` is the AES block-decryption function for the key in use. -/
def cbcDecBlocks (D : List Byte → List Byte) : List Byte → List (List Byte) → List (List Byte)
  | _, [] => []
  | prev, c :: cs => bxor (D c) prev :: cbcDecBlocks D c cs

/-- `CBCEncrypt` from `aes.go`: rejects non-block-aligned plaintexts, then
builds the cipher from the key (failing on a bad key size), draws a one-block
random IV (here a parameter `iv`, one value per call of the random draw), and
returns the IV followed by the CBC-encrypted blocks. -/
def CBCEncrypt (E : List Byte → List Byte) (key iv s : List Byte) :
    Except String (List Byte) :=
  if s.length % aesBlockSize ≠ 0 then
    .error "plaintext is not a multiple of the block size"
  else if aesKeySizeOk key then
    .ok (iv ++ (cbcEncBlocks E iv (toBlocks s)).flatten)
  else .error "crypto/aes: invalid key size"

/-- `CBCDecrypt` from `aes.go`: builds the cipher from the key, requires at
least one block of input, consumes the leading block as the IV, requires the
rest to be block-aligned, and CBC-decrypts it. -/
def CBCDecrypt (D : List Byte → List Byte) (key src : List Byte) :
    Except String (List Byte) :=
  if aesKeySizeOk key then
    if src.length < aesBlockSize then .error "ciphertext too short"
    else if (src.drop aesBlockSize).length % aesBlockSize ≠ 0 then
      .error "ciphertext is not a multiple of the block size"
    else .ok ((cbcDecBlocks D (src.take aesBlockSize) (toBlocks (src.drop aesBlockSize))).flatten)
  else .error "crypto/aes: invalid key size"

section CBCLemmas

theorem byteXor_cancel (x y : Byte) : byteXor (byteXor x y) y = x := by
  unfold byteXor
  apply Fin.ext
  simp only
  have hxy : x.val ^^^ y.val < 256 := by
    have h8 : (256 : Nat) = 2 ^ 8 := by norm_num
    calc x.val ^^^ y.val < 2 ^ 8 := Nat.xor_lt_two_pow (h8 ▸ x.isLt) (h8 ▸ y.isLt)
    _ = 256 := by norm_num
  rw [Nat.mod_eq_of_lt hxy, Nat.xor_assoc, Nat.xor_self, Nat.xor_zero,
    Nat.mod_eq_of_lt x.isLt]

theorem bxor_length (a b : List Byte) : (bxor a b).length = min a.length b.length :=
  List.length_zipWith _ _ _

theorem bxor_cancel : ∀ (a b : List Byte), a.length = b.length →
    bxor (bxor a b) b = a := by
  intro a
  induction a with
  | nil =>
    intro b h
    cases b with
    | nil => rfl
    | cons y t => simp at h
  | cons x a ih =>
    intro b h
    cases b with
    | nil => simp at h
    | cons y t =>
      simp only [bxor, List.zipWith_cons_cons] at *
      rw [byteXor_cancel]
      have ht := ih t (by simpa using h)
      simp only [bxor] at ht
      rw [ht]

theorem toBlocks_nil : toBlocks [] = [] := by
  rw [toBlocks]
  simp

theorem join_toBlocks (l : List Byte) : (toBlocks l).flatten = l := by
  induction l using toBlocks.induct with
  | case1 =>
    rw [toBlocks_nil]
    rfl
  | case2 l hl ih =>
    rw [toBlocks, dif_neg hl, List.flatten_cons, ih, List.take_append_drop]

theorem toBlocks_blocks_length (l : List Byte) (h : l.length % 16 = 0) :
    ∀ b ∈ toBlocks l, b.length = 16 := by
  induction l using toBlocks.induct with
  | case1 =>
    intro b hb
    rw [toBlocks_nil] at hb
    exact absurd hb (List.not_mem_nil b)
  | case2 l hl ih =>
    have hpos : 0 < l.length := List.length_pos.mpr hl
    have h16 : 16 ≤ l.length := by omega
    intro b hb
    rw [toBlocks, dif_neg hl] at hb
    rcases List.mem_cons.mp hb with hb | hb
    · subst hb
      rw [List.length_take]
      omega
    · exact ih (by rw [List.length_drop]; omega) b hb

theorem toBlocks_cons_of_append (b rest : List Byte) (hb : b.length = 16) :
    toBlocks (b ++ rest) = b :: toBlocks rest := by
  have hne : b ++ rest ≠ [] := by
    intro hc
    have := List.append_eq_nil.mp hc
    rw [this.1] at hb
    simp at hb
  rw [toBlocks, dif_neg hne]
  congr 1
  · rw [← hb, List.take_left]
  · rw [← hb, List.drop_left]

theorem toBlocks_join_of_blocks (bs : List (List Byte))
    (h : ∀ b ∈ bs, b.length = 16) : toBlocks bs.flatten = bs := by
  induction bs with
  | nil => rw [List.flatten_nil, toBlocks_nil]
  | cons b bs ih =>
    rw [List.flatten_cons, toBlocks_cons_of_append b _ (h b (List.mem_cons_self b bs)),
      ih (fun x hx => h x (List.mem_cons_of_mem b hx))]

theorem cbcEncBlocks_blocks_length (E : List Byte → List Byte)
    (hE : ∀ b : List Byte, b.length = 16 → (E b).length = 16) :
    ∀ (bs : List (List Byte)) (prev : List Byte),
      (∀ b ∈ bs, b.length = 16) → prev.length = 16 →
      ∀ c ∈ cbcEncBlocks E prev bs, c.length = 16 := by
  intro bs
  induction bs with
  | nil =>
    intro prev _ _ c hc
    exact absurd hc (List.not_mem_nil c)
  | cons b bs ih =>
    intro prev hbs hprev c hc
    have hb : b.length = 16 := hbs b (List.mem_cons_self b bs)
    have hc16 : (E (bxor b prev)).length = 16 := by
      apply hE
      rw [bxor_length, hb, hprev]
      simp
    rw [cbcEncBlocks] at hc
    rcases List.mem_cons.mp hc with hc | hc
    · rw [hc]; exact hc16
    · exact ih (E (bxor b prev)) (fun x hx => hbs x (List.mem_cons_of_mem b hx)) hc16 c hc

theorem cbcDecBlocks_cbcEncBlocks (E D : List Byte → List Byte)
    (hE : ∀ b : List Byte, b.length = 16 → (E b).length = 16)
    (hDE : ∀ b : List Byte, D (E b) = b) :
    ∀ (bs : List (List Byte)) (prev : List Byte),
      (∀ b ∈ bs, b.length = 16) → prev.length = 16 →
      cbcDecBlocks D prev (cbcEncBlocks E prev bs) = bs := by
  intro bs
  induction bs with
  | nil => intro prev _ _; rfl
  | cons b bs ih =>
    intro prev hbs hprev
    have hb : b.length = 16 := hbs b (List.mem_cons_self b bs)
    have hxlen : (bxor b prev).length = 16 := by
      rw [bxor_length, hb, hprev]
      simp
    rw [cbcEncBlocks, cbcDecBlocks, hDE,
      bxor_cancel b prev (by rw [hb, hprev]),
      ih (E (bxor b prev)) (fun x hx => hbs x (List.mem_cons_of_mem b hx)) (hE _ hxlen)]

theorem join_blocks_length_mod (bs : List (List Byte))
    (h : ∀ b ∈ bs, b.length = 16) : bs.flatten.length % 16 = 0 := by
  induction bs with
  | nil => rfl
  | cons b bs ih =>
    rw [List.flatten_cons, List.length_append, h b (List.mem_cons_self b bs)]
    have := ih (fun x hx => h x (List.mem_cons_of_mem b hx))
    omega

end CBCLemmas

/-- C7: for every valid AES key (any block permutation `E`/`D` with
`D (E b) = b` that maps 16-byte blocks to 16-byte blocks, with the key
accepted by `aes.NewCipher`), every block-aligned plaintext and every IV
value of one block drawn by the random step, encryption succeeds with the IV
prepended to the encrypted blocks and decryption recovers the plaintext. -/
theorem cbc_roundtrip (E D : List Byte → List Byte) (key iv s : List Byte)
    (hkey : aesKeySizeOk key = true) (hiv : iv.length = aesBlockSize)
    (hs : s.length % aesBlockSize = 0)
    (hE : ∀ b : List Byte, b.length = aesBlockSize → (E b).length = aesBlockSize)
    (hDE : ∀ b : List Byte, D (E b) = b) :
    CBCEncrypt E key iv s = .ok (iv ++ (cbcEncBlocks E iv (toBlocks s)).flatten) ∧
    CBCDecrypt D key (iv ++ (cbcEncBlocks E iv (toBlocks s)).flatten) = .ok s := by
  have hs16 : s.length % 16 = 0 := hs
  have hiv16 : iv.length = 16 := hiv
  have hE16 : ∀ b : List Byte, b.length = 16 → (E b).length = 16 := hE
  have hsblocks : ∀ b ∈ toBlocks s, b.length = 16 := toBlocks_blocks_length s hs16
  have hctblocks : ∀ c ∈ cbcEncBlocks E iv (toBlocks s), c.length = 16 :=
    cbcEncBlocks_blocks_length E hE16 (toBlocks s) iv hsblocks hiv16
  have hjoinmod : (cbcEncBlocks E iv (toBlocks s)).flatten.length % 16 = 0 :=
    join_blocks_length_mod _ hctblocks
  constructor
  · unfold CBCEncrypt
    rw [if_neg (by unfold aesBlockSize; omega), if_pos hkey]
  · unfold CBCDecrypt
    rw [if_pos hkey]
    have hlen : (iv ++ (cbcEncBlocks E iv (toBlocks s)).flatten).length =
        16 + (cbcEncBlocks E iv (toBlocks s)).flatten.length := by
      rw [List.length_append, hiv16]
    have hdrop : (iv ++ (cbcEncBlocks E iv (toBlocks s)).flatten).drop aesBlockSize =
        (cbcEncBlocks E iv (toBlocks s)).flatten := by
      unfold aesBlockSize
      rw [← hiv16, List.drop_left]
    have htake : (iv ++ (cbcEncBlocks E iv (toBlocks s)).flatten).take aesBlockSize = iv := by
      unfold aesBlockSize
      rw [← hiv16, List.take_left]
    rw [if_neg (by rw [hlen]; unfold aesBlockSize; omega), hdrop, htake,
      if_neg (by unfold aesBlockSize; omega),
      toBlocks_join_of_blocks _ hctblocks,
      cbcDecBlocks_cbcEncBlocks E D hE16 hDE (toBlocks s) iv hsblocks hiv16,
      join_toBlocks]

/-- C7 witness: with the identity block permutation, a 32-byte key, the
all-ones IV and a one-block plaintext of 7s, encryption prepends the IV and
decryption recovers the plaintext. -/
theorem cbc_roundtrip_witness :
    CBCEncrypt (fun b => b) (List.replicate 32 (0 : Byte)) (List.replicate 16 (1 : Byte))
        (List.replicate 16 (7 : Byte)) =
      .ok (List.replicate 16 (1 : Byte) ++
        (cbcEncBlocks (fun b => b) (List.replicate 16 (1 : Byte))
          (toBlocks (List.replicate 16 (7 : Byte)))).flatten) ∧
    CBCDecrypt (fun b => b) (List.replicate 32 (0 : Byte))
        (List.replicate 16 (1 : Byte) ++
          (cbcEncBlocks (fun b => b) (List.replicate 16 (1 : Byte))
            (toBlocks (List.replicate 16 (7 : Byte)))).flatten) =
      .ok (List.replicate 16 (7 : Byte)) :=
  cbc_roundtrip (fun b => b) (fun b => b) (List.replicate 32 (0 : Byte))
    (List.replicate 16 (1 : Byte)) (List.replicate 16 (7 : Byte))
    (by decide) (by decide) (by decide)
    (fun b h => h) (fun b => rfl)

/-- `HMAC` from `hash.go`: computes the tag of `x` under `key` with the
process-wide default hash; the underlying `crypto/hmac` computation is the
parameter `mac` (key → message → tag). -/
def HMAC (mac : List Byte → List Byte → List Byte) (key x : List Byte) : List Byte :=
  mac key x

/-- `HMACTruncated` from `hash.go`: computes the full tag and returns
`mac.Sum(nil)[:truncation]` with no validation and no error return; `none`
models the Go panic when the slice bound is negative or exceeds the tag
length (`truncation` is a Go `int`, hence `Int` here). -/
def HMACTruncated (mac : List Byte → List Byte → List Byte) (key x : List Byte)
    (truncation : Int) : Option (List Byte) :=
  if 0 ≤ truncation ∧ truncation ≤ ((mac key x).length : Int) then
    some ((mac key x).take truncation.toNat)
  else none

/-- A concrete stand-in for the configured HMAC, used only at concrete
inputs: every tag is the two bytes `[1, 2]`. -/
def constMac : List Byte → List Byte → List Byte := fun _ _ => [(1 : Byte), (2 : Byte)]

/-- C9 counterexample: `HMACTruncated` performs no validation — at
`truncation = 0` (claimed to fail with `InvalidParameter`) it returns the
empty tag successfully, and out-of-range values panic (`none`) instead of
returning an error; the Go function has no error result at all. -/
theorem hmactruncated_no_validation :
    HMACTruncated constMac [] [] 0 = some [] ∧
    HMACTruncated constMac [] [] 3 = none ∧
    HMACTruncated constMac [] [] (-1) = none := by
  refine ⟨?_, ?_, ?_⟩ <;> rfl

/-- C9 (amended): for `0 ≤ n ≤` tag length the call returns normally with the
length-`n` leading slice of the full tag (`n = 0` included, yielding the empty
tag); for `n < 0` or `n >` tag length the slice panics — no `InvalidParameter`
error exists, the function having no error return. -/
theorem HMACTruncated_spec (mac : List Byte → List Byte → List Byte)
    (key x : List Byte) (n : Int) :
    (0 ≤ n → n ≤ ((HMAC mac key x).length : Int) →
      ∃ t, HMACTruncated mac key x n = some t ∧ t.length = n.toNat ∧
        ∃ rest, HMAC mac key x = t ++ rest) ∧
    (n < 0 ∨ ((HMAC mac key x).length : Int) < n → HMACTruncated mac key x n = none) := by
  have hH : HMAC mac key x = mac key x := rfl
  constructor
  · intro h0 hle
    rw [hH] at hle
    refine ⟨(mac key x).take n.toNat, ?_, ?_, (mac key x).drop n.toNat, ?_⟩
    · unfold HMACTruncated
      rw [if_pos ⟨h0, hle⟩]
    · rw [List.length_take, Nat.min_eq_left (Int.toNat_le.mpr hle)]
    · rw [hH, List.take_append_drop]
  · intro hrange
    rw [hH] at hrange
    unfold HMACTruncated
    rw [if_neg]
    rintro ⟨h1, h2⟩
    rcases hrange with h | h
    · omega
    · omega

/-- C9 witness: at `n = 1` with the concrete stand-in HMAC the call returns a
one-byte tag that the full tag extends. -/
theorem HMACTruncated_spec_witness :
    ∃ t, HMACTruncated constMac [] [] 1 = some t ∧ t.length = (1 : Int).toNat ∧
      ∃ rest, HMAC constMac [] [] = t ++ rest :=
  (HMACTruncated_spec constMac [] [] 1).1 (by decide) (by decide)

/-- The named lifecycle errors of `core/crypto/utils` plus opaque other
errors (CA failures, configuration failures, ...). -/
inductive CryptoErr where
  | keyStoreAlreadyInitialized
  | alreadyRegistered
  | alreadyInitialized
  | other (code : Nat)
deriving DecidableEq, Repr

/-- The observable state of a `nodeImpl` (the fields the lifecycle claims
speak about): the two monotonic flags, the entity type (`int32`), whether
configuration was loaded, whether the key store is initialized, and the
enrollment material persisted by the crypto-engine registration. -/
structure NodeState where
  isRegistered : Bool
  isInitialized : Bool
  eType : Int
  confLoaded : Bool
  ksInitialized : Bool
  enrollMaterial : Option Nat
deriving DecidableEq, Repr

/-- A freshly constructed node: both flags false, nothing loaded. -/
def freshNode : NodeState :=
  { isRegistered := false, isInitialized := false, eType := 0,
    confLoaded := false, ksInitialized := false, enrollMaterial := none }

/-- Modelled from the spec: `nodeImpl.initKeyStore` (its file is absent from
the excerpt; `register`/`init` in `part_003` only branch on its result). Per
the spec's lifecycle contract — initialize uses "init-or-open" semantics
(§4.4 step 2), the already-initialized key-store condition is non-fatal
during register retries (§4.4 failure semantics, §7) and the source treats
it as recoverable (§9) — the call succeeds on an already-initialized store
(opening it, state unchanged), while a first-time initialization sets the
store up, succeeding or failing with the external outcome `ks` of the
underlying store creation (for example an invalid passphrase or a storage
failure). -/
def nodeImpl.initKeyStore (ks : Except CryptoErr Unit) (st : NodeState) :
    Except CryptoErr NodeState :=
  if st.ksInitialized then .ok st
  else
    match ks with
    | .error e => .error e
    | .ok _ => .ok { st with ksInitialized := true }

/-- Outcomes of the external steps of one `register` call. `initConfiguration`
and `registerCryptoEngine` are modelled from the spec (their files are absent
from the excerpt): the former loads the node's configuration, the latter
contacts the certificate authority and on success persists the enrollment
material (a `Nat` stands for that material); `keyStore` is the outcome of a
first-time key-store creation (see `nodeImpl.initKeyStore`). `regFunc` is the
role hook argument; `none` is Go `nil`. -/
structure RegEnv where
  initConfiguration : Except CryptoErr Unit
  keyStore : Except CryptoErr Unit
  registerCryptoEngine : Except CryptoErr Nat
  regFunc : Option (Except CryptoErr Unit)

/-- `nodeImpl.nodeRegister` from `part_003`: runs the crypto-engine
registration and forwards its error unchanged. -/
def nodeImpl.nodeRegister (env : RegEnv) : Except CryptoErr Nat :=
  env.registerCryptoEngine

/-- `nodeImpl.register` from `part_003`, line for line: set `eType`; load the
configuration (returning its error); run the key-store step, returning any
error it yields (the `ErrKeyStoreAlreadyInitialized` case of the inner
if/else only selects the log message); fail with `AlreadyRegistered` / then
`AlreadyInitialized` on the flags; run `nodeRegister` (crypto-engine
enrollment, persisting material on success); run `regFunc` when non-nil;
finally `setRegistered`. -/
def nodeImpl.register (env : RegEnv) (eType : Int) (st : NodeState) :
    Except CryptoErr Unit × NodeState :=
  let st := { st with eType := eType }
  match env.initConfiguration with
  | .error e => (.error e, st)
  | .ok _ =>
    let st := { st with confLoaded := true }
    match nodeImpl.initKeyStore env.keyStore st with
    | .error e => (.error e, st)
    | .ok st =>
      if st.isRegistered then (.error .alreadyRegistered, st)
      else if st.isInitialized then (.error .alreadyInitialized, st)
      else
        match nodeImpl.nodeRegister env with
        | .error e => (.error e, st)
        | .ok m =>
          let st := { st with enrollMaterial := some m }
          match env.regFunc with
          | some (.error e) => (.error e, st)
          | _ => (.ok (), { st with isRegistered := true })

/-- Outcomes of the external steps of one `init` call; `initCryptoEngine` is
modelled from the spec (its file is absent from the excerpt); `keyStore` is
the outcome of a first-time key-store creation; `initFunc` is the role hook
argument, `none` being Go `nil`. -/
structure InitEnv where
  initConfiguration : Except CryptoErr Unit
  keyStore : Except CryptoErr Unit
  initCryptoEngine : Except CryptoErr Unit
  initFunc : Option (Except CryptoErr Unit)

/-- `nodeImpl.nodeInit` from `part_003`: runs the crypto-engine
initialization and forwards its error unchanged. -/
def nodeImpl.nodeInit (env : InitEnv) : Except CryptoErr Unit :=
  env.initCryptoEngine

/-- `nodeImpl.init` from `part_003`, line for line: set `eType`; load the
configuration; run the key-store step, returning any error it yields; fail
with `AlreadyInitialized` on the flag; run `nodeInit`; run `initFunc` when
non-nil; finally `setInitialized`. -/
def nodeImpl.init (env : InitEnv) (eType : Int) (st : NodeState) :
    Except CryptoErr Unit × NodeState :=
  let st := { st with eType := eType }
  match env.initConfiguration with
  | .error e => (.error e, st)
  | .ok _ =>
    let st := { st with confLoaded := true }
    match nodeImpl.initKeyStore env.keyStore st with
    | .error e => (.error e, st)
    | .ok st =>
      if st.isInitialized then (.error .alreadyInitialized, st)
      else
        match nodeImpl.nodeInit env with
        | .error e => (.error e, st)
        | .ok _ =>
          match env.initFunc with
          | some (.error e) => (.error e, st)
          | _ => (.ok (), { st with isInitialized := true })

/-- A register environment in which every external step succeeds. -/
def envRegOk : RegEnv :=
  { initConfiguration := .ok (), keyStore := .ok (),
    registerCryptoEngine := .ok 42, regFunc := none }

/-- A register environment in which the certificate-authority enrollment
(crypto-engine registration) fails. -/
def envRegFail : RegEnv :=
  { initConfiguration := .ok (), keyStore := .ok (),
    registerCryptoEngine := .error (.other 7), regFunc := none }

/-- An init environment in which every external step succeeds. -/
def envInitOk : InitEnv :=
  { initConfiguration := .ok (), keyStore := .ok (),
    initCryptoEngine := .ok (), initFunc := none }

/-- C2: `register` sets the registered flag to true only when configuration
loading, key-store initialization, crypto-engine enrollment and the role hook
(if present) all succeed; any error return leaves the flag false. -/
theorem register_flag_only_on_full_success (env : RegEnv) (eType : Int)
    (st : NodeState) (hreg : st.isRegistered = false) :
    (∀ e st', nodeImpl.register env eType st = (.error e, st') →
       st'.isRegistered = false) ∧
    (∀ st', nodeImpl.register env eType st = (.ok (), st') →
       st'.isRegistered = true ∧
       env.initConfiguration = .ok () ∧
       (st.ksInitialized = false → env.keyStore = .ok ()) ∧
       (∃ m, env.registerCryptoEngine = .ok m) ∧
       (∀ r, env.regFunc = some r → r = .ok ())) := by
  constructor
  · intro e st' h
    unfold nodeImpl.register nodeImpl.nodeRegister nodeImpl.initKeyStore at h
    rcases hconf : env.initConfiguration with e0 | u
    · simp [hconf] at h
      obtain ⟨h1, h2⟩ := h
      subst h2
      simp [hreg]
    · cases hks : st.ksInitialized with
      | true =>
        cases hinit : st.isInitialized with
        | true =>
          simp [hconf, hks, hreg, hinit] at h
          obtain ⟨h1, h2⟩ := h
          subst h2
          simp [hreg]
        | false =>
          rcases heng : env.registerCryptoEngine with e1 | m
          · simp [hconf, hks, hreg, hinit, heng] at h
            obtain ⟨h1, h2⟩ := h
            subst h2
            simp [hreg]
          · rcases hhook : env.regFunc with _ | r
            · simp [hconf, hks, hreg, hinit, heng, hhook] at h
            · rcases r with e2 | u2
              · simp [hconf, hks, hreg, hinit, heng, hhook] at h
                obtain ⟨h1, h2⟩ := h
                subst h2
                simp [hreg]
              · simp [hconf, hks, hreg, hinit, heng, hhook] at h
      | false =>
        rcases hkso : env.keyStore with ek | uk
        · simp [hconf, hks, hkso] at h
          obtain ⟨h1, h2⟩ := h
          subst h2
          simp [hreg]
        · cases hinit : st.isInitialized with
          | true =>
            simp [hconf, hks, hkso, hreg, hinit] at h
            obtain ⟨h1, h2⟩ := h
            subst h2
            simp [hreg]
          | false =>
            rcases heng : env.registerCryptoEngine with e1 | m
            · simp [hconf, hks, hkso, hreg, hinit, heng] at h
              obtain ⟨h1, h2⟩ := h
              subst h2
              simp [hreg]
            · rcases hhook : env.regFunc with _ | r
              · simp [hconf, hks, hkso, hreg, hinit, heng, hhook] at h
              · rcases r with e2 | u2
                · simp [hconf, hks, hkso, hreg, hinit, heng, hhook] at h
                  obtain ⟨h1, h2⟩ := h
                  subst h2
                  simp [hreg]
                · simp [hconf, hks, hkso, hreg, hinit, heng, hhook] at h
  · intro st' h
    unfold nodeImpl.register nodeImpl.nodeRegister nodeImpl.initKeyStore at h
    rcases hconf : env.initConfiguration with e0 | u
    · simp [hconf] at h
    · cases hks : st.ksInitialized with
      | true =>
        cases hinit : st.isInitialized with
        | true => simp [hconf, hks, hreg, hinit] at h
        | false =>
          rcases heng : env.registerCryptoEngine with e1 | m
          · simp [hconf, hks, hreg, hinit, heng] at h
          · rcases hhook : env.regFunc with _ | r
            · simp [hconf, hks, hreg, hinit, heng, hhook] at h
              subst h
              refine ⟨rfl, rfl, ?_, ⟨m, rfl⟩, ?_⟩
              · exact fun hc => Bool.noConfusion hc
              · intro r hr
                exact Option.noConfusion hr
            · rcases r with e2 | u2
              · simp [hconf, hks, hreg, hinit, heng, hhook] at h
              · simp [hconf, hks, hreg, hinit, heng, hhook] at h
                subst h
                refine ⟨rfl, rfl, ?_, ⟨m, rfl⟩, ?_⟩
                · exact fun hc => Bool.noConfusion hc
                · intro r hr
                  exact (Option.some.inj hr).symm
      | false =>
        rcases hkso : env.keyStore with ek | uk
        · simp [hconf, hks, hkso] at h
        · cases hinit : st.isInitialized with
          | true => simp [hconf, hks, hkso, hreg, hinit] at h
          | false =>
            rcases heng : env.registerCryptoEngine with e1 | m
            · simp [hconf, hks, hkso, hreg, hinit, heng] at h
            · rcases hhook : env.regFunc with _ | r
              · simp [hconf, hks, hkso, hreg, hinit, heng, hhook] at h
                subst h
                refine ⟨rfl, rfl, fun _ => rfl, ⟨m, rfl⟩, ?_⟩
                intro r hr
                exact Option.noConfusion hr
              · rcases r with e2 | u2
                · simp [hconf, hks, hkso, hreg, hinit, heng, hhook] at h
                · simp [hconf, hks, hkso, hreg, hinit, heng, hhook] at h
                  subst h
                  refine ⟨rfl, rfl, fun _ => rfl, ⟨m, rfl⟩, ?_⟩
                  intro r hr
                  exact (Option.some.inj hr).symm

/-- C2 witness: with a failing certificate-authority enrollment the call
returns the error and the fresh node's registered flag stays false. -/
theorem register_flag_only_on_full_success_witness :
    (nodeImpl.register envRegFail 1 freshNode).2.isRegistered = false :=
  (register_flag_only_on_full_success envRegFail 1 freshNode rfl).1 (.other 7)
    (nodeImpl.register envRegFail 1 freshNode).2 rfl

/-- C3: on a node whose key store is already initialized, the key-store step
of `register` succeeds (the condition is non-fatal), so the call never
returns `KeyStoreAlreadyInitialized` because of it — any error it returns
originates in a later step — and a retry of a previously failed register
completes successfully when the remaining steps now succeed. -/
theorem register_keystore_already_initialized_nonfatal (env : RegEnv)
    (eType : Int) (st : NodeState) (hks : st.ksInitialized = true)
    (hconf : env.initConfiguration = .ok ()) :
    (∀ e, (nodeImpl.register env eType st).1 = .error e →
       e = .alreadyRegistered ∨ e = .alreadyInitialized ∨
       env.registerCryptoEngine = .error e ∨ env.regFunc = some (.error e)) ∧
    (st.isRegistered = false → st.isInitialized = false →
     (∃ m, env.registerCryptoEngine = .ok m) →
     (∀ r, env.regFunc = some r → r = .ok ()) →
       (nodeImpl.register env eType st).1 = .ok () ∧
       (nodeImpl.register env eType st).2.isRegistered = true) := by
  constructor
  · intro e h
    unfold nodeImpl.register nodeImpl.nodeRegister nodeImpl.initKeyStore at h
    cases hreg : st.isRegistered with
    | true =>
      simp [hconf, hks, hreg] at h
      subst h
      exact Or.inl rfl
    | false =>
      cases hinit : st.isInitialized with
      | true =>
        simp [hconf, hks, hreg, hinit] at h
        subst h
        exact Or.inr (Or.inl rfl)
      | false =>
        rcases heng : env.registerCryptoEngine with e1 | m
        · simp [hconf, hks, hreg, hinit, heng] at h
          subst h
          exact Or.inr (Or.inr (Or.inl rfl))
        · rcases hhook : env.regFunc with _ | r
          · simp [hconf, hks, hreg, hinit, heng, hhook] at h
          · rcases r with e2 | u2
            · simp [hconf, hks, hreg, hinit, heng, hhook] at h
              subst h
              exact Or.inr (Or.inr (Or.inr rfl))
            · simp [hconf, hks, hreg, hinit, heng, hhook] at h
  · intro hreg hinit hm hhookAll
    obtain ⟨m, heng⟩ := hm
    unfold nodeImpl.register nodeImpl.nodeRegister nodeImpl.initKeyStore
    rcases hhook : env.regFunc with _ | r
    · constructor
      · simp [hconf, hks, hreg, hinit, heng]
      · simp [hconf, hks, hreg, hinit, heng]
    · have hr := hhookAll r hhook
      subst hr
      constructor
      · simp [hconf, hks, hreg, hinit, heng]
      · simp [hconf, hks, hreg, hinit, heng]

/-- C3 witness: a first register fails at the certificate-authority step,
leaving the key store initialized and the flag false; the retry (all
remaining steps succeeding) completes and sets the flag. -/
theorem register_keystore_already_initialized_nonfatal_witness :
    (nodeImpl.register envRegOk 1 (nodeImpl.register envRegFail 1 freshNode).2).1
      = .ok () ∧
    (nodeImpl.register envRegOk 1
      (nodeImpl.register envRegFail 1 freshNode).2).2.isRegistered = true :=
  (register_keystore_already_initialized_nonfatal envRegOk 1
    (nodeImpl.register envRegFail 1 freshNode).2 rfl rfl).2 rfl rfl ⟨42, rfl⟩
    (fun r hr => Option.noConfusion hr)

/-- C4: once `register` has succeeded (registered flag set and key store
initialized), a subsequent `register` whose configuration step succeeds opens
the existing key store, reaches the registered-flag check and fails fast with
`AlreadyRegistered`, leaving the flags and the stored enrollment material
unchanged. -/
theorem register_twice_alreadyRegistered (env : RegEnv) (eType : Int)
    (st : NodeState) (hreg : st.isRegistered = true) (hks : st.ksInitialized = true)
    (hconf : env.initConfiguration = .ok ()) :
    (nodeImpl.register env eType st).1 = .error .alreadyRegistered ∧
    (nodeImpl.register env eType st).2.isRegistered = true ∧
    (nodeImpl.register env eType st).2.ksInitialized = true ∧
    (nodeImpl.register env eType st).2.enrollMaterial = st.enrollMaterial := by
  unfold nodeImpl.register nodeImpl.initKeyStore
  simp [hconf, hks, hreg]

/-- C4 witness: a second register after a first successful one returns
`AlreadyRegistered`. -/
theorem register_twice_alreadyRegistered_witness :
    (nodeImpl.register envRegOk 2 (nodeImpl.register envRegOk 1 freshNode).2).1
      = .error .alreadyRegistered :=
  (register_twice_alreadyRegistered envRegOk 2
    (nodeImpl.register envRegOk 1 freshNode).2 rfl rfl rfl).1

/-- C5: after a completed successful `init` (initialized flag set and key
store initialized), a later `init` whose configuration step succeeds opens
the existing key store and fails fast with `AlreadyInitialized`; `init`
returns success only when every step succeeded, setting the flag; and any
error return leaves the initialized flag unchanged. -/
theorem init_lifecycle (env : InitEnv) (eType : Int) (st : NodeState) :
    (st.isInitialized = true → st.ksInitialized = true →
       env.initConfiguration = .ok () →
       (nodeImpl.init env eType st).1 = .error .alreadyInitialized) ∧
    (∀ st', nodeImpl.init env eType st = (.ok (), st') →
       st'.isInitialized = true ∧
       env.initConfiguration = .ok () ∧
       (st.ksInitialized = false → env.keyStore = .ok ()) ∧
       env.initCryptoEngine = .ok () ∧
       (∀ r, env.initFunc = some r → r = .ok ())) ∧
    (∀ e st', nodeImpl.init env eType st = (.error e, st') →
       st'.isInitialized = st.isInitialized) := by
  refine ⟨?_, ?_, ?_⟩
  · intro hinit hks hconf
    unfold nodeImpl.init nodeImpl.initKeyStore
    simp [hconf, hks, hinit]
  · intro st' h
    unfold nodeImpl.init nodeImpl.nodeInit nodeImpl.initKeyStore at h
    rcases hconf : env.initConfiguration with e0 | u
    · simp [hconf] at h
    · cases hks : st.ksInitialized with
      | true =>
        cases hinit : st.isInitialized with
        | true => simp [hconf, hks, hinit] at h
        | false =>
          rcases heng : env.initCryptoEngine with e1 | u1
          · simp [hconf, hks, hinit, heng] at h
          · rcases hhook : env.initFunc with _ | r
            · simp [hconf, hks, hinit, heng, hhook] at h
              subst h
              refine ⟨rfl, rfl, ?_, rfl, ?_⟩
              · exact fun hc => Bool.noConfusion hc
              · intro r hr
                exact Option.noConfusion hr
            · rcases r with e2 | u2
              · simp [hconf, hks, hinit, heng, hhook] at h
              · simp [hconf, hks, hinit, heng, hhook] at h
                subst h
                refine ⟨rfl, rfl, ?_, rfl, ?_⟩
                · exact fun hc => Bool.noConfusion hc
                · intro r hr
                  exact (Option.some.inj hr).symm
      | false =>
        rcases hkso : env.keyStore with ek | uk
        · simp [hconf, hks, hkso] at h
        · cases hinit : st.isInitialized with
          | true => simp [hconf, hks, hkso, hinit] at h
          | false =>
            rcases heng : env.initCryptoEngine with e1 | u1
            · simp [hconf, hks, hkso, hinit, heng] at h
            · rcases hhook : env.initFunc with _ | r
              · simp [hconf, hks, hkso, hinit, heng, hhook] at h
                subst h
                refine ⟨rfl, rfl, fun _ => rfl, rfl, ?_⟩
                intro r hr
                exact Option.noConfusion hr
              · rcases r with e2 | u2
                · simp [hconf, hks, hkso, hinit, heng, hhook] at h
                · simp [hconf, hks, hkso, hinit, heng, hhook] at h
                  subst h
                  refine ⟨rfl, rfl, fun _ => rfl, rfl, ?_⟩
                  intro r hr
                  exact (Option.some.inj hr).symm
  · intro e st' h
    unfold nodeImpl.init nodeImpl.nodeInit nodeImpl.initKeyStore at h
    rcases hconf : env.initConfiguration with e0 | u
    · simp [hconf] at h
      obtain ⟨h1, h2⟩ := h
      subst h2
      rfl
    · cases hks : st.ksInitialized with
      | true =>
        cases hinit : st.isInitialized with
        | true =>
          simp [hconf, hks, hinit] at h
          obtain ⟨h1, h2⟩ := h
          subst h2
          simp [hinit]
        | false =>
          rcases heng : env.initCryptoEngine with e1 | u1
          · simp [hconf, hks, hinit, heng] at h
            obtain ⟨h1, h2⟩ := h
            subst h2
            simp [hinit]
          · rcases hhook : env.initFunc with _ | r
            · simp [hconf, hks, hinit, heng, hhook] at h
            · rcases r with e2 | u2
              · simp [hconf, hks, hinit, heng, hhook] at h
                obtain ⟨h1, h2⟩ := h
                subst h2
                simp [hinit]
              · simp [hconf, hks, hinit, heng, hhook] at h
      | false =>
        rcases hkso : env.keyStore with ek | uk
        · simp [hconf, hks, hkso] at h
          obtain ⟨h1, h2⟩ := h
          subst h2
          rfl
        · cases hinit : st.isInitialized with
          | true =>
            simp [hconf, hks, hkso, hinit] at h
            obtain ⟨h1, h2⟩ := h
            subst h2
            simp [hinit]
          | false =>
            rcases heng : env.initCryptoEngine with e1 | u1
            · simp [hconf, hks, hkso, hinit, heng] at h
              obtain ⟨h1, h2⟩ := h
              subst h2
              simp [hinit]
            · rcases hhook : env.initFunc with _ | r
              · simp [hconf, hks, hkso, hinit, heng, hhook] at h
              · rcases r with e2 | u2
                · simp [hconf, hks, hkso, hinit, heng, hhook] at h
                  obtain ⟨h1, h2⟩ := h
                  subst h2
                  simp [hinit]
                · simp [hconf, hks, hkso, hinit, heng, hhook] at h

/-- C5 witness: a second `init` after a first successful one on a fresh node
returns `AlreadyInitialized`. -/
theorem init_lifecycle_witness :
    (nodeImpl.init envInitOk 1 (nodeImpl.init envInitOk 1 freshNode).2).1
      = .error .alreadyInitialized :=
  (init_lifecycle envInitOk 1 (nodeImpl.init envInitOk 1 freshNode).2).1 rfl rfl rfl

/-- The configuration and external outcomes `getSecHelper`'s closure depends
on: whether security/validator mode is enabled, and the outcomes of
`crypto.RegisterValidator` / `crypto.InitValidator` (resp. `RegisterPeer` /
`InitPeer`), which are modelled from the spec as opaque results (a `Nat`
stands for the constructed `crypto.Peer`). -/
structure SecEnv where
  securityEnabled : Bool
  validatorEnabled : Bool
  registerValidator : Except CryptoErr Unit
  initValidator : Except CryptoErr Nat
  registerPeer : Except CryptoErr Unit
  initPeer : Except CryptoErr Nat

/-- The body of the `once.Do` closure in `getSecHelper` (node start file),
starting from the zero values of the function-local `secHelper` and `err`:
register then initialize the validator (or the non-validating peer), bailing
out on the first error; with security disabled it leaves both locals nil. -/
def secHelperClosure (env : SecEnv) : Option Nat × Option CryptoErr :=
  if env.securityEnabled then
    if env.validatorEnabled then
      match env.registerValidator with
      | .error e => (none, some e)
      | .ok _ =>
        match env.initValidator with
        | .error e => (none, some e)
        | .ok p => (some p, none)
    else
      match env.registerPeer with
      | .error e => (none, some e)
      | .ok _ =>
        match env.initPeer with
        | .error e => (none, some e)
        | .ok p => (some p, none)
  else (none, none)

/-- `getSecHelper` from the node start file: `secHelper` and `err` are
function-local variables (zero values `nil, nil` on every call) while `once`
is package-level, so `once.Do` runs the closure only when `onceDone` is
still false. Returns the `(secHelper, err)` pair the caller sees, the new
state of `once`, and whether the closure ran during this call (that is,
whether this call made a crypto-engine construction attempt). -/
def getSecHelper (env : SecEnv) (onceDone : Bool) :
    (Option Nat × Option CryptoErr) × Bool × Bool :=
  if onceDone then ((none, none), true, false)
  else (secHelperClosure env, true, true)

/-- A configuration with security and validator mode enabled whose
`RegisterValidator` step fails. -/
def envSecFail : SecEnv :=
  { securityEnabled := true, validatorEnabled := true,
    registerValidator := .error (.other 3), initValidator := .ok 0,
    registerPeer := .ok (), initPeer := .ok 0 }

/-- C1: with security enabled and a failing validator registration, the
first `getSecHelper` call makes the construction attempt and returns its
error; the second call makes no new attempt (the claim's first half holds)
but returns `(nil, nil)` — not the first call's outcome — because
`secHelper` and `err` are function-local and the skipped closure never
repopulates them, contradicting the claim (and the code's own comment that
the result is cached). -/
theorem getSecHelper_second_call_drops_outcome :
    getSecHelper envSecFail false = ((none, some (.other 3)), true, true) ∧
    getSecHelper envSecFail true = ((none, none), true, false) ∧
    (some (CryptoErr.other 3) : Option CryptoErr) ≠ none :=
  ⟨rfl, rfl, fun h => Option.noConfusion h⟩
